import Mathlib

/-!
Verification development for the incendios small-multiples renderer and
burned-area aggregator.

The repository consists of python scripts.  The parts relevant to the
properties checked here are embedded shallowly:

* A geometry enters the renderer only through `geom.is_empty`, its
  bounding box `geom.bounds = (minx, miny, maxx, maxy)`, and whether it is
  (or maps to) a Polygon/MultiPolygon, so a geometry is modelled by the
  structure `Geom` carrying exactly those data, with coordinates in `ℚ`.
* Python's `max()` over a (possibly empty) sequence is modelled by `pyMax`,
  which returns `none` exactly when the sequence is empty (the `ValueError`
  case).
* `draw_geoms_to_svg_scaled` (scripts 02/04) is modelled by a function
  into `Except RenderError`, recording the three failure points that occur
  before any path is emitted (empty input, `max()` on an empty generator,
  division by a zero maximum), the computed global scale, and the list of
  `(index, geometry)` pairs for which a path is emitted — the loop skips
  empty and non-(Multi)Polygon geometries.
* `pandas.DataFrame.sort_values(by=k, ascending=False)` with a single key
  goes through `nargsort` (`pandas/core/sorting.py`): it reverses the
  values and the index, takes an ascending argsort of the reversed values,
  maps it through the reversed index, and reverses the resulting indexer.
  The scripts use the default `kind='quicksort'` (introsort), which
  promises no stability, so the tie order of the final table is not
  determined by the code; the model fixes the stable behaviour
  (`List.mergeSort`), and every theorem proved against it uses only facts
  invariant under the choice of argsort permutation.
* For the overlay aggregator (scripts 11/12/13) polygon geometry is
  modelled measure-theoretically as a finite set of unit cells
  (`Finset ℕ`): area is cardinality, geometric intersection and union are
  set intersection and union.  `gpd.overlay(..., how="intersection")`
  produces one row per intersecting (boundary, event) pair.
* Attribute access on features: a missing or unparseable `firedate` is
  `none` (mirroring `parse_firedate`, which catches every exception and
  returns `None`); a `fireyear` on which python's `int()` would raise is
  `none`; a NaN cell of a numeric dataframe column is `none`.
* The fallible geometry primitives `shapely.validation.make_valid` and
  `buffer(0)` are taken as abstract parameters of type
  `GeomId → Except String GeomId`, so the statements about the repair
  wrappers hold for every possible behaviour of the primitives.
-/

namespace Incendios

/-! ## Renderer geometry model (02small-multiples-scale.py) -/

/-- View of a shapely geometry as consumed by `draw_geoms_to_svg_scaled`:
the emptiness flag, the bounding box `bounds = (minx, miny, maxx, maxy)`,
and whether the geometry is (or maps to) a Polygon or MultiPolygon — the
loop's `isinstance`/`mapping` chain skips any other geometry type with
`continue`. -/
structure Geom where
  isEmpty : Bool
  minx : ℚ
  miny : ℚ
  maxx : ℚ
  maxy : ℚ
  isPolygonal : Bool
deriving DecidableEq, Repr

/-- Bounding-box width `g.bounds[2] - g.bounds[0]`. -/
def Geom.width (g : Geom) : ℚ := g.maxx - g.minx

/-- Bounding-box height `g.bounds[3] - g.bounds[1]`. -/
def Geom.height (g : Geom) : ℚ := g.maxy - g.miny

/-- The sub-collection `(g for g in geoms if not g.is_empty)`. -/
def nonEmpties (gs : List Geom) : List Geom := gs.filter (fun g => !g.isEmpty)

/-- Python `min(a, b)` on two numbers, written with an explicit comparison
so that it evaluates by kernel reduction. -/
def pyMin (a b : ℚ) : ℚ := if a ≤ b then a else b

/-- Python `max(a, b)` on two numbers, written with an explicit comparison
so that it evaluates by kernel reduction. -/
def pyMax2 (a b : ℚ) : ℚ := if a ≤ b then b else a

theorem pyMin_eq_min (a b : ℚ) : pyMin a b = min a b := (min_def a b).symm

theorem pyMax2_eq_max (a b : ℚ) : pyMax2 a b = max a b := (max_def a b).symm

/-- Python `max()` over a sequence: `none` models the `ValueError` raised on
an empty sequence. -/
def pyMax : List ℚ → Option ℚ
  | [] => none
  | x :: xs =>
    some (match pyMax xs with
      | none => x
      | some m => pyMax2 x m)

/-- The fixed cell padding `inner_pad = 4` of `draw_geoms_to_svg_scaled`. -/
def inner_pad : ℚ := 4

/-- The available inner cell dimension `inner = cell - inner_pad * 2`. -/
def innerDim (cell : ℚ) : ℚ := cell - inner_pad * 2

/-- Source line `max_w = max(g.bounds[2] - g.bounds[0] for g in geoms if not g.is_empty)`. -/
def max_w (gs : List Geom) : Option ℚ := pyMax ((nonEmpties gs).map Geom.width)

/-- Source line `max_h = max(g.bounds[3] - g.bounds[1] for g in geoms if not g.is_empty)`. -/
def max_h (gs : List Geom) : Option ℚ := pyMax ((nonEmpties gs).map Geom.height)

/-- Source line `global_scale = min(inner / max_w, inner / max_h)`; `none` when either
`max()` call raises. -/
def global_scale (inner : ℚ) (gs : List Geom) : Option ℚ :=
  match max_w gs, max_h gs with
  | some w, some h => some (pyMin (inner / w) (inner / h))
  | _, _ => none

/-- Failure points of `draw_geoms_to_svg_scaled` that occur before any path
is emitted. -/
inductive RenderError where
  /-- The `raise SystemExit("No hay geometrías para dibujar.")` when `n == 0`. -/
  | emptyInput
  /-- A `ValueError` from `max()` when the non-empty generator is empty. -/
  | maxOfEmptySeq
  /-- A `ZeroDivisionError` from `inner / max_w` or `inner / max_h` when
  the corresponding maximum is zero (scripts 02/04; script 06 instead
  guards with `if max_w > 0 and max_h > 0` and falls back to scale 1.0). -/
  | zeroDivision
deriving DecidableEq, Repr

/-- Observable outcome of `draw_geoms_to_svg_scaled` (scripts 02/04): the
length-zero check, then the two `max()` calls (`ValueError` on an empty
generator), then the divisions `inner / max_w` and `inner / max_h`
(`ZeroDivisionError` when a maximum is zero), then the loop, which skips
empty geometries and non-(Multi)Polygon geometries and emits one cell per
remaining geometry.  The returned value is the global scale together with
the `(index, geometry)` pairs for which a path is emitted. -/
def draw_geoms_to_svg_scaled (cell : ℚ) (gs : List Geom) :
    Except RenderError (ℚ × List (ℕ × Geom)) :=
  if gs.length = 0 then .error .emptyInput
  else
    match max_w gs, max_h gs with
    | none, _ => .error .maxOfEmptySeq
    | _, none => .error .maxOfEmptySeq
    | some w, some h =>
      if w = 0 ∨ h = 0 then .error .zeroDivision
      else
        .ok (pyMin (innerDim cell / w) (innerDim cell / h),
          gs.enum.filter (fun p => !p.2.isEmpty && p.2.isPolygonal))

/-! ### Facts about `pyMax` -/

theorem pyMax_eq_none_iff (xs : List ℚ) : pyMax xs = none ↔ xs = [] := by
  cases xs with
  | nil => simp [pyMax]
  | cons x xs => simp [pyMax]

theorem pyMax_cons (x : ℚ) (xs : List ℚ) :
    pyMax (x :: xs) =
      some (match pyMax xs with | none => x | some m => pyMax2 x m) := rfl

theorem pyMax_ub {xs : List ℚ} {m : ℚ} (h : pyMax xs = some m) :
    ∀ x ∈ xs, x ≤ m := by
  induction xs generalizing m with
  | nil => exact absurd h (by simp [pyMax])
  | cons y ys ih =>
    intro x hx
    cases hys : pyMax ys with
    | none =>
      obtain rfl : ys = [] := (pyMax_eq_none_iff ys).mp hys
      simp [pyMax_cons, hys] at h
      simp at hx
      subst hx
      exact le_of_eq h
    | some m2 =>
      simp [pyMax_cons, hys, pyMax2_eq_max] at h
      rcases List.mem_cons.mp hx with rfl | hx2
      · exact h ▸ le_max_left x m2
      · exact h ▸ le_trans (ih hys x hx2) (le_max_right y m2)

theorem pyMax_mem {xs : List ℚ} {m : ℚ} (h : pyMax xs = some m) : m ∈ xs := by
  induction xs generalizing m with
  | nil => exact absurd h (by simp [pyMax])
  | cons y ys ih =>
    cases hys : pyMax ys with
    | none =>
      simp [pyMax_cons, hys] at h
      rw [← h]
      exact List.mem_cons_self y ys
    | some m2 =>
      simp [pyMax_cons, hys, pyMax2_eq_max] at h
      rcases le_total y m2 with hle | hle
      · rw [← h, max_eq_right hle]
        exact List.mem_cons_of_mem y (ih hys)
      · rw [← h, max_eq_left hle]
        exact List.mem_cons_self y ys

/-! ### C1: the global scale is the unique maximum fitting scale -/

/-- C1: for a collection whose non-empty geometries have positive maximal
bounding-box width `W` and height `H`, and positive inner cell dimension,
the renderer's global scale is `min (inner / W) (inner / H)`, every
non-empty geometry's scaled bounding box fits in `inner × inner`, and any
scale with that fitting property is at most the global scale — so the
global scale is the unique maximum such scale. -/
theorem global_scale_unique_max_fit (inner : ℚ) (gs : List Geom) (W H : ℚ)
    (hW : max_w gs = some W) (hH : max_h gs = some H)
    (hWpos : 0 < W) (hHpos : 0 < H) (hinner : 0 < inner) :
    global_scale inner gs = some (min (inner / W) (inner / H)) ∧
    (∀ g ∈ nonEmpties gs,
      min (inner / W) (inner / H) * g.width ≤ inner ∧
      min (inner / W) (inner / H) * g.height ≤ inner) ∧
    (∀ s : ℚ,
      (∀ g ∈ nonEmpties gs, s * g.width ≤ inner ∧ s * g.height ≤ inner) →
      s ≤ min (inner / W) (inner / H)) := by
  have hsPos : 0 < min (inner / W) (inner / H) :=
    lt_min (div_pos hinner hWpos) (div_pos hinner hHpos)
  refine ⟨by simp [global_scale, hW, hH, pyMin_eq_min], ?_, ?_⟩
  · intro g hg
    have hgW : g.width ≤ W :=
      pyMax_ub hW _ (List.mem_map.mpr ⟨g, hg, rfl⟩)
    have hgH : g.height ≤ H :=
      pyMax_ub hH _ (List.mem_map.mpr ⟨g, hg, rfl⟩)
    constructor
    · calc min (inner / W) (inner / H) * g.width
          ≤ min (inner / W) (inner / H) * W :=
            mul_le_mul_of_nonneg_left hgW (le_of_lt hsPos)
        _ ≤ (inner / W) * W :=
            mul_le_mul_of_nonneg_right (min_le_left _ _) (le_of_lt hWpos)
        _ = inner := div_mul_cancel₀ inner (ne_of_gt hWpos)
    · calc min (inner / W) (inner / H) * g.height
          ≤ min (inner / W) (inner / H) * H :=
            mul_le_mul_of_nonneg_left hgH (le_of_lt hsPos)
        _ ≤ (inner / H) * H :=
            mul_le_mul_of_nonneg_right (min_le_right _ _) (le_of_lt hHpos)
        _ = inner := div_mul_cancel₀ inner (ne_of_gt hHpos)
  · intro s hs
    obtain ⟨gW, hgWmem, hgWeq⟩ := List.mem_map.mp (pyMax_mem hW)
    obtain ⟨gH, hgHmem, hgHeq⟩ := List.mem_map.mp (pyMax_mem hH)
    have h1 : s * W ≤ inner := hgWeq ▸ (hs gW hgWmem).1
    have h2 : s * H ≤ inner := hgHeq ▸ (hs gH hgHmem).2
    exact le_min ((le_div_iff₀ hWpos).mpr h1) ((le_div_iff₀ hHpos).mpr h2)

/-- Concrete input for the C1 witness: a 1×1 and a 2×3 extent. -/
def c1gs : List Geom :=
  [⟨false, 0, 0, 1, 1, true⟩, ⟨false, 0, 0, 2, 3, true⟩]

/-- C1 witness: the theorem instantiated at two concrete extents and
`inner = 56`. -/
theorem global_scale_unique_max_fit_witness :
    global_scale 56 c1gs = some (min (56 / 2) (56 / 3)) ∧
    (∀ g ∈ nonEmpties c1gs,
      min ((56 : ℚ) / 2) (56 / 3) * g.width ≤ 56 ∧
      min ((56 : ℚ) / 2) (56 / 3) * g.height ≤ 56) ∧
    (∀ s : ℚ,
      (∀ g ∈ nonEmpties c1gs, s * g.width ≤ 56 ∧ s * g.height ≤ 56) →
      s ≤ min (56 / 2) (56 / 3)) :=
  global_scale_unique_max_fit 56 c1gs 2 3
    (by simp [max_w, c1gs, nonEmpties, pyMax, pyMax2, Geom.width])
    (by simp [max_h, c1gs, nonEmpties, pyMax, pyMax2, Geom.height])
    (by norm_num) (by norm_num) (by norm_num)

/-! ### C8: the renderer's skip criterion is emptiness, not zero extent -/

/-- CLAIM-side notion for C8: a geometry whose bounding extent has zero
width or zero height. -/
def zeroExtent (g : Geom) : Bool := decide (g.width = 0) || decide (g.height = 0)

/-- Concrete collection refuting C8: a 1×1 extent together with a non-empty
polygonal geometry of zero width and height 5. -/
def c8gs : List Geom :=
  [⟨false, 0, 0, 1, 1, true⟩, ⟨false, 0, 0, 0, 5, true⟩]

/-- Cells actually emitted by the renderer on `c8gs` with `cell = 64`. -/
def c8cells : List (ℕ × Geom) :=
  match draw_geoms_to_svg_scaled 64 c8gs with
  | .ok (_, cells) => cells
  | .error _ => []

/-- C8 counterexample: on `c8gs` the zero-width geometry is neither excluded
from the global-scale computation (the scale changes from `56/5` to `56`
when it is removed, because its height 5 drives `max_h`) nor skipped from
rendering (it is emitted as a cell), refuting the claim as stated. -/
theorem c8_zero_extent_counterexample :
    ¬ (global_scale (innerDim 64) c8gs =
          global_scale (innerDim 64) (c8gs.filter (fun g => !zeroExtent g)) ∧
       ∀ p ∈ c8cells, zeroExtent p.2 = false) := by
  rintro ⟨h1, -⟩
  have e1 : global_scale (innerDim 64) c8gs = some (56 / 5) := by
    simp [global_scale, max_w, max_h, c8gs, nonEmpties, pyMax, pyMax2, pyMin,
          innerDim, inner_pad, Geom.width, Geom.height]
    norm_num
  have e2 : global_scale (innerDim 64)
      (c8gs.filter (fun g => !zeroExtent g)) = some 56 := by
    simp [global_scale, max_w, max_h, c8gs, nonEmpties, zeroExtent, pyMax,
          pyMax2, pyMin, innerDim, inner_pad, Geom.width, Geom.height]
    norm_num
  rw [e1, e2] at h1
  simp at h1
  norm_num at h1

/-- C8 amended: the renderer's exclusion criterion is emptiness, not zero
extent.  Provided the maximal non-empty width `W` and height `H` are
positive (when `W = 0` or `H = 0` scripts 02/04 instead raise
`ZeroDivisionError`, and script 06 falls back to scale 1.0), rendering
succeeds, the emitted cells are exactly the non-empty polygonal entries —
so empty geometries are skipped while a non-empty polygonal geometry with
zero-width or zero-height extent is rendered — and every non-empty
geometry's extent, including a zero one, is bounded by the maxima that set
the global scale. -/
theorem c8_amended (cell : ℚ) (gs : List Geom) (W H : ℚ)
    (hW : max_w gs = some W) (hH : max_h gs = some H)
    (hWpos : 0 < W) (hHpos : 0 < H) :
    ∃ cells, draw_geoms_to_svg_scaled cell gs =
        .ok (pyMin (innerDim cell / W) (innerDim cell / H), cells) ∧
      (∀ p : ℕ × Geom, p ∈ cells ↔
        p ∈ gs.enum ∧ p.2.isEmpty = false ∧ p.2.isPolygonal = true) ∧
      (∀ g ∈ gs, g.isEmpty = false → g.width ≤ W ∧ g.height ≤ H) := by
  have hlen : ¬ gs.length = 0 := by
    intro h0
    rw [List.length_eq_zero] at h0
    subst h0
    simp [max_w, nonEmpties, pyMax] at hW
  have hz : ¬ (W = 0 ∨ H = 0) := by
    rintro (rfl | rfl)
    · exact absurd hWpos (lt_irrefl 0)
    · exact absurd hHpos (lt_irrefl 0)
  refine ⟨gs.enum.filter (fun p => !p.2.isEmpty && p.2.isPolygonal),
    ?_, ?_, ?_⟩
  · simp [draw_geoms_to_svg_scaled, hlen, hW, hH, hz]
  · intro p
    simp [List.mem_filter, Bool.and_eq_true]
  · intro g hg hgne
    have hg' : g ∈ nonEmpties gs := by
      simp [nonEmpties, List.mem_filter, hg, hgne]
    exact ⟨pyMax_ub hW _ (List.mem_map.mpr ⟨g, hg', rfl⟩),
      pyMax_ub hH _ (List.mem_map.mpr ⟨g, hg', rfl⟩)⟩

/-- C8 witness collection: one empty geometry, one zero-width polygonal
geometry of height 5, one 1×1 polygonal geometry; the maximal non-empty
width is 1 and height is 5, both positive. -/
def c8wgs : List Geom :=
  [⟨true, 0, 0, 0, 0, true⟩, ⟨false, 0, 0, 0, 5, true⟩,
   ⟨false, 0, 0, 1, 1, true⟩]

/-- C8 witness: the amended theorem at `c8wgs`: rendering succeeds, the
empty geometry is skipped, the zero-width geometry is rendered, and all
non-empty extents are bounded by the maxima. -/
theorem c8_amended_witness :
    ∃ cells, draw_geoms_to_svg_scaled 64 c8wgs =
        .ok (pyMin (innerDim 64 / 1) (innerDim 64 / 5), cells) ∧
      (∀ p : ℕ × Geom, p ∈ cells ↔
        p ∈ c8wgs.enum ∧ p.2.isEmpty = false ∧ p.2.isPolygonal = true) ∧
      (∀ g ∈ c8wgs, g.isEmpty = false → g.width ≤ 1 ∧ g.height ≤ 5) :=
  c8_amended 64 c8wgs 1 5
    (by norm_num [max_w, c8wgs, nonEmpties, pyMax, pyMax2, Geom.width])
    (by norm_num [max_h, c8wgs, nonEmpties, pyMax, pyMax2, Geom.height])
    (by norm_num) (by norm_num)

/-! ### C10: the two pre-path failure modes of the renderer -/

/-- C10: on a non-empty collection whose geometries are all empty, the
renderer fails with the `ValueError` of `max()` on an empty sequence before
any path is emitted, and the explicit empty-input `SystemExit` occurs
exactly when the collection itself is empty. -/
theorem draw_error_cases (cell : ℚ) (gs : List Geom) :
    (gs ≠ [] → (∀ g ∈ gs, g.isEmpty = true) →
      draw_geoms_to_svg_scaled cell gs = .error .maxOfEmptySeq) ∧
    (draw_geoms_to_svg_scaled cell gs = .error .emptyInput ↔ gs = []) := by
  constructor
  · intro hne hall
    have hlen : ¬ gs.length = 0 := by
      intro h0
      exact hne (List.length_eq_zero.mp h0)
    have hnonE : nonEmpties gs = [] := by
      rw [nonEmpties, List.filter_eq_nil_iff]
      intro g hg
      simp [hall g hg]
    have hmw : max_w gs = none := by
      rw [max_w, hnonE]
      simp [pyMax_eq_none_iff]
    simp [draw_geoms_to_svg_scaled, hlen, hmw]
  · constructor
    · intro h
      by_contra hne
      have hlen : ¬ gs.length = 0 := by
        intro h0
        exact hne (List.length_eq_zero.mp h0)
      cases hw : max_w gs with
      | none => simp [draw_geoms_to_svg_scaled, hlen, hw] at h
      | some w =>
        cases hh : max_h gs with
        | none => simp [draw_geoms_to_svg_scaled, hlen, hw, hh] at h
        | some h2 =>
          by_cases hz : w = 0 ∨ h2 = 0
          · simp [draw_geoms_to_svg_scaled, hlen, hw, hh, hz] at h
          · simp [draw_geoms_to_svg_scaled, hlen, hw, hh, hz] at h
    · intro h
      subst h
      rfl

/-- C10 witness: a one-element collection whose geometry is empty hits the
`max()` failure, not the explicit empty-input error. -/
theorem draw_error_cases_witness :
    draw_geoms_to_svg_scaled 64 [⟨true, 0, 0, 0, 0, true⟩] =
      .error .maxOfEmptySeq ∧
    ¬ (draw_geoms_to_svg_scaled 64 [⟨true, 0, 0, 0, 0, true⟩] =
      .error .emptyInput) :=
  ⟨(draw_error_cases 64 _).1 (by decide) (by decide),
   fun h => by
     have := (draw_error_cases 64 [⟨true, 0, 0, 0, 0, true⟩]).2.mp h
     simp at this⟩

/-! ## pandas descending sort model

`DataFrame.sort_values(by=k, ascending=False)` with a single key column
goes through `nargsort` (`pandas/core/sorting.py`), which reverses the
values and the positional index, computes an ascending argsort of the
reversed values with the requested numpy kind, maps it through the
reversed index, and finally reverses the indexer.  Whether ties keep
their original relative order therefore reduces to the stability of the
underlying numpy argsort; the scripts use the default `kind='quicksort'`
(introsort), which promises no stability, so tie order is not settled
here.  The model below fixes the stable behaviour (`List.mergeSort`) —
the aggregation claims proved against it use only facts invariant under
any choice of the argsort permutation (the sorted output is a
permutation of its input). -/

/-- Boolean ascending comparison of sort keys. -/
def leKey {α : Type} (key : α → ℚ) (a b : α) : Bool := decide (key a ≤ key b)

/-- Stable ascending sort of rows on a key. -/
def stableSortAsc {α : Type} (key : α → ℚ) (xs : List α) : List α :=
  xs.mergeSort (leKey key)

/-- pandas `sort_values(by=key, ascending=False)` row order: the reverse of
the stable ascending sort of the reversed rows. -/
def pandasSortRowsDesc {α : Type} (key : α → ℚ) (xs : List α) : List α :=
  (stableSortAsc key xs.reverse).reverse

theorem pandasSortRowsDesc_perm {α : Type} (key : α → ℚ) (xs : List α) :
    (pandasSortRowsDesc key xs).Perm xs :=
  (List.reverse_perm _).trans
    ((List.mergeSort_perm xs.reverse (leKey key)).trans (List.reverse_perm xs))

/-! ## Classification rules (04-small-multiples_bigfires_2016_2025.py and
06-small-fires-2025.py)

A feature row is seen by the colour rules only through two attributes.
`firedate` holds the result of `parse_firedate`, which returns `None` on a
missing or unparseable value (it catches every exception), so it is an
`Option` of a timestamp, modelled as an integer on the timeline.
`fireyear` holds the result python's `int(row.get("fireyear"))` would
produce: `none` when `int()` raises (missing value or unparseable text). -/

/-- Colour for `fireyear == 2025` in `pick_color`. -/
def COLOR_2025 : String := "#fac4c5"

/-- Colour for `firedate >= cutoff` in `pick_color`. -/
def COLOR_RECENT : String := "#a80127"

/-- Fallback colour in `pick_color`. -/
def COLOR_DEFAULT : String := "#d8d0d0"

/-- Colour for `firedate < cutoff` (and missing dates) in
`pick_color_2025`. -/
def COLOR_ROSA : String := "#fac4c5"

/-- Colour for `firedate >= cutoff` in `pick_color_2025`. -/
def COLOR_GRANATE : String := "#a80127"

/-- Attribute view of a feature row as consumed by the colour rules. -/
structure FeatRow where
  firedate : Option ℤ
  fireyear : Option ℤ
deriving DecidableEq, Repr

/-- Python exceptions that can escape the colour rules. -/
inductive PyError where
  /-- A `TypeError` or `ValueError` from `int()` on a missing or unparseable
  `fireyear`. -/
  | intConversion
deriving DecidableEq, Repr

/-- The tail of `pick_color`: `if int(row.get("fireyear")) == 2025: return
COLOR_2025; return COLOR_DEFAULT`.  `int()` raises when the attribute is
missing or unparseable. -/
def pickColorYearBranch (row : FeatRow) : Except PyError String :=
  match row.fireyear with
  | some y => .ok (if y = 2025 then COLOR_2025 else COLOR_DEFAULT)
  | none => .error .intConversion

/-- Function `pick_color` of script 04: first the date predicate `fd >= cutoff`
(skipped when `parse_firedate` returned `None`), then the year predicate,
then the default. -/
def pick_color (row : FeatRow) (cutoff : ℤ) : Except PyError String :=
  match row.firedate with
  | some fd => if cutoff ≤ fd then .ok COLOR_RECENT else pickColorYearBranch row
  | none => pickColorYearBranch row

/-- Function `pick_color_2025` of script 06: `fd >= cutoff` gives GRANATE, anything
else (including a missing date) gives ROSA. -/
def pick_color_2025 (row : FeatRow) (cutoff : ℤ) : String :=
  match row.firedate with
  | some fd => if cutoff ≤ fd then COLOR_GRANATE else COLOR_ROSA
  | none => COLOR_ROSA

/-! ### C5: the cutoff comparison is inclusive -/

/-- C5: a feature whose parsed date equals the cutoff exactly is assigned
the on-or-after-cutoff category by both classification rules, and that
category is distinct from the other categories. -/
theorem cutoff_is_inclusive (row : FeatRow) (cutoff : ℤ)
    (h : row.firedate = some cutoff) :
    pick_color row cutoff = .ok COLOR_RECENT ∧
    pick_color_2025 row cutoff = COLOR_GRANATE ∧
    COLOR_RECENT ≠ COLOR_2025 ∧ COLOR_RECENT ≠ COLOR_DEFAULT ∧
    COLOR_GRANATE ≠ COLOR_ROSA := by
  refine ⟨?_, ?_, by decide, by decide, by decide⟩
  · rw [pick_color, h]
    simp
  · rw [pick_color_2025, h]
    simp

/-- C5 witness: the theorem at a concrete row dated exactly at the cutoff
timestamp `100`. -/
theorem cutoff_is_inclusive_witness :
    pick_color ⟨some 100, none⟩ 100 = .ok COLOR_RECENT ∧
    pick_color_2025 ⟨some 100, none⟩ 100 = COLOR_GRANATE ∧
    COLOR_RECENT ≠ COLOR_2025 ∧ COLOR_RECENT ≠ COLOR_DEFAULT ∧
    COLOR_GRANATE ≠ COLOR_ROSA :=
  cutoff_is_inclusive ⟨some 100, none⟩ 100 rfl

/-! ### C6: behaviour on a missing or unparseable date -/

/-- C6 counterexample: on a row whose date and year attributes are both
missing, `pick_color` raises (the year predicate evaluates
`int(row.get("fireyear"))` on a missing value), so the classification is
not a total function of the attributes and the claim as stated fails. -/
theorem pick_color_not_total_counterexample :
    (pick_color ⟨none, none⟩ 0).isOk = false := rfl

/-- C6 amended: with a missing or unparseable date the date predicate is
skipped without raising and evaluation falls through to the year predicate
and then the default category; this is total provided the year attribute
converts to an integer, and raises the `int()` conversion error when the
year attribute is missing or unparseable as well. -/
theorem pick_color_missing_date_falls_through (row : FeatRow) (cutoff : ℤ)
    (hd : row.firedate = none) :
    pick_color row cutoff = pickColorYearBranch row ∧
    (∀ y, row.fireyear = some y →
      pick_color row cutoff =
        .ok (if y = 2025 then COLOR_2025 else COLOR_DEFAULT)) ∧
    (row.fireyear = none →
      pick_color row cutoff = .error .intConversion) := by
  refine ⟨by rw [pick_color, hd], ?_, ?_⟩
  · intro y hy
    rw [pick_color, hd, pickColorYearBranch, hy]
  · intro hy
    rw [pick_color, hd, pickColorYearBranch, hy]

/-- C6 witness: the amended theorem at a row with a missing date and the
year attribute `2024`, classified into the default category. -/
theorem pick_color_missing_date_falls_through_witness :
    pick_color ⟨none, some 2024⟩ 0 = pickColorYearBranch ⟨none, some 2024⟩ ∧
    pick_color ⟨none, some 2024⟩ 0 = .ok COLOR_DEFAULT :=
  ⟨(pick_color_missing_date_falls_through ⟨none, some 2024⟩ 0 rfl).1,
   by
    have h := (pick_color_missing_date_falls_through ⟨none, some 2024⟩ 0
      rfl).2.1 2024 rfl
    simpa using h⟩

/-! ## Geometry repair (make_valid of 02/04/06, safe_make_valid of
11/12/13)

The two topology-fixing primitives are abstract fallible operations: any
function from a geometry to either a geometry or a raised exception. -/

/-- Abstract geometry identifier. -/
abbrev GeomId := ℕ

/-- An abstract fallible geometry primitive (`shapely.validation.make_valid`
or `buffer(0)`): result geometry or raised exception message. -/
abbrev GeomOp := GeomId → Except String GeomId

/-- Function `make_valid` of scripts 02/04/06: try the canonical validity-fixing
transform; on any exception try `buffer(0)`; on any exception return the
original geometry. -/
def make_valid (mkValidPrim buffer0Prim : GeomOp) (g : GeomId) :
    Except String GeomId :=
  match mkValidPrim g with
  | .ok r => .ok r
  | .error _ =>
    match buffer0Prim g with
    | .ok r => .ok r
    | .error _ => .ok g

/-- Function `safe_make_valid` of scripts 11/12/13: applies `buffer(0)` directly,
with no exception handling and no canonical-transform attempt. -/
def safe_make_valid (buffer0Prim : GeomOp) (g : GeomId) :
    Except String GeomId :=
  buffer0Prim g

/-! ### C7: the repair fallback chain -/

/-- C7 counterexample: the aggregator scripts' repair function
`safe_make_valid` raises whenever the buffer primitive raises — it does not
implement the never-raising three-stage fallback chain the claim ascribes
to every repair entry point. -/
theorem safe_make_valid_raises_counterexample :
    (safe_make_valid (fun _ => .error "GEOSException") 0).isOk = false := rfl

/-- C7 amended: the renderer scripts' `make_valid` never raises, whatever
the primitives do: it returns the canonical transform's result when that
succeeds, else the zero-distance buffer's result when that succeeds, else
the original geometry unchanged.  The aggregator scripts' `safe_make_valid`
instead applies the buffer primitive directly and propagates its
exceptions. -/
theorem make_valid_fallback_chain (mkv buf : GeomOp) (g : GeomId) :
    (make_valid mkv buf g).isOk = true ∧
    (∀ r, mkv g = .ok r → make_valid mkv buf g = .ok r) ∧
    (∀ e r, mkv g = .error e → buf g = .ok r → make_valid mkv buf g = .ok r) ∧
    (∀ e e2, mkv g = .error e → buf g = .error e2 →
      make_valid mkv buf g = .ok g) ∧
    safe_make_valid buf g = buf g := by
  refine ⟨?_, ?_, ?_, ?_, rfl⟩
  · cases hm : mkv g with
    | ok r => simp [make_valid, hm, Except.isOk, Except.toBool]
    | error e =>
      cases hb : buf g with
      | ok r => simp [make_valid, hm, hb, Except.isOk, Except.toBool]
      | error e2 => simp [make_valid, hm, hb, Except.isOk, Except.toBool]
  · intro r hm
    simp [make_valid, hm]
  · intro e r hm hb
    simp [make_valid, hm, hb]
  · intro e e2 hm hb
    simp [make_valid, hm, hb]

/-- C7 witness: the amended theorem at a failing canonical transform, a
succeeding buffer, and geometry `3`. -/
theorem make_valid_fallback_chain_witness :
    make_valid (fun _ => .error "topology error") (fun n => .ok (n + 1)) 3 =
      .ok 4 ∧
    (make_valid (fun _ => .error "topology error") (fun n => .ok (n + 1))
      3).isOk = true :=
  ⟨(make_valid_fallback_chain (fun _ => .error "topology error")
      (fun n => .ok (n + 1)) 3).2.2.1 "topology error" 4 rfl rfl,
   (make_valid_fallback_chain (fun _ => .error "topology error")
      (fun n => .ok (n + 1)) 3).1⟩

/-! ## Overlay aggregator model (11-ccaa_burn_2025.py and
12-provincias_burn_2025.py)

Polygon geometry is modelled as a finite set of unit cells: area is
cardinality, geometric intersection and union are set intersection and
union.  The boundary input is the dissolved table (one row per NAMEUNIT
label); the event input carries the authoritative area attribute consulted
by `filter_fires_min_ha`. -/

/-- A dissolved boundary row: one group label (`NAMEUNIT`) with its merged
geometry. -/
structure Boundary where
  label : String
  geom : Finset ℕ
deriving DecidableEq

/-- A fire event row: authoritative area attribute (hectares) and
geometry. -/
structure FireEv where
  area_ha : ℚ
  geom : Finset ℕ
deriving DecidableEq

/-- Area in hectares of a geometry in the metric frame (discrete model:
cardinality). -/
def areaHa (s : Finset ℕ) : ℚ := s.card

/-- The qualifying events `fires[fires[area_field] >= min_ha]`. -/
def filterMinHa (es : List FireEv) (minHa : ℚ) : List FireEv :=
  es.filter (fun e => decide (minHa ≤ e.area_ha))

/-- Rows of `gpd.overlay(boundaries, fires, how="intersection")`: one row
per intersecting (boundary, event) pair, carrying the boundary label and
the intersection geometry. -/
def interRows (bs : List Boundary) (es : List FireEv) :
    List (String × Finset ℕ) :=
  bs.flatMap (fun b =>
    (es.filter (fun e => decide (b.geom ∩ e.geom).Nonempty)).map
      (fun e => (b.label, b.geom ∩ e.geom)))

/-- The `groupby("NAMEUNIT")["burn_ha"].sum()` aggregate read at one
label. -/
def burnByLabel (rows : List (String × Finset ℕ)) (l : String) : ℚ :=
  ((rows.filter (fun r => decide (r.1 = l))).map (fun r => areaHa r.2)).sum

/-- One output row of the aggregation table: label, total area, burned
area, percentage. -/
structure AggRow where
  label : String
  total_ha : ℚ
  burn_ha : ℚ
  pct : ℚ
deriving DecidableEq

/-- The left-join of the per-label burned-area sums onto the boundary
table, with `fillna({"burn_ha": 0.0})` and
`pct = burn_ha / area_total_ha * 100`, before the final sort.  The
group-by read `burnByLabel` returns `0` for a label with no intersection
rows, which is exactly the left-join-and-fill behaviour.  Division is
rational and total, where the float code yields NaN at total area zero;
the theorem about the percent column therefore carries a positive-total
hypothesis so that it asserts nothing on that divergent case. -/
def aggRows (bs : List Boundary) (es : List FireEv) (minHa : ℚ) :
    List AggRow :=
  bs.map (fun b =>
    { label := b.label
      total_ha := areaHa b.geom
      burn_ha := burnByLabel (interRows bs (filterMinHa es minHa)) b.label
      pct := burnByLabel (interRows bs (filterMinHa es minHa)) b.label /
        areaHa b.geom * 100 })

/-- The aggregation output: `out.sort_values("pct", ascending=False)`. -/
def aggregate (bs : List Boundary) (es : List FireEv) (minHa : ℚ) :
    List AggRow :=
  pandasSortRowsDesc AggRow.pct (aggRows bs es minHa)

/-- Sum over all boundary labels of the reported burned area. -/
def reportedBurnTotal (bs : List Boundary) (es : List FireEv)
    (minHa : ℚ) : ℚ :=
  ((aggregate bs es minHa).map AggRow.burn_ha).sum

/-- Union of all dissolved boundary geometries. -/
def unionAll (bs : List Boundary) : Finset ℕ :=
  bs.foldr (fun b acc => b.geom ∪ acc) ∅

/-- Sum over qualifying events of the area of the event's intersection with
the union of all boundaries. -/
def eventsInterUnionTotal (bs : List Boundary) (es : List FireEv)
    (minHa : ℚ) : ℚ :=
  ((filterMinHa es minHa).map
    (fun e => areaHa (e.geom ∩ unionAll bs))).sum

theorem unionAll_cons (b0 : Boundary) (rest : List Boundary) :
    unionAll (b0 :: rest) = b0.geom ∪ unionAll rest := rfl

theorem interRows_cons (b0 : Boundary) (rest : List Boundary)
    (es : List FireEv) :
    interRows (b0 :: rest) es =
      ((es.filter (fun e => decide (b0.geom ∩ e.geom).Nonempty)).map
        (fun e => (b0.label, b0.geom ∩ e.geom))) ++ interRows rest es := by
  simp [interRows]

/-! ### List summation helpers -/

theorem sum_map_add {α : Type} (f g : α → ℚ) (l : List α) :
    (l.map (fun a => f a + g a)).sum = (l.map f).sum + (l.map g).sum := by
  induction l with
  | nil => simp
  | cons x t ih =>
    simp only [List.map_cons, List.sum_cons, ih]
    ring

theorem sum_map_filter_eq {α : Type} (p : α → Bool) (f : α → ℚ)
    (l : List α) (h : ∀ a ∈ l, p a = false → f a = 0) :
    ((l.filter p).map f).sum = (l.map f).sum := by
  induction l with
  | nil => rfl
  | cons x t ih =>
    have ht : ∀ a ∈ t, p a = false → f a = 0 :=
      fun a ha => h a (List.mem_cons_of_mem _ ha)
    cases hp : p x with
    | true => simp [List.filter_cons, hp, ih ht]
    | false =>
      simp [List.filter_cons, hp, ih ht, h x (List.mem_cons_self _ _) hp]

theorem sum_sum_comm {α β : Type} (l : List α) (F : List β)
    (f : α → β → ℚ) :
    (l.map (fun b => (F.map (f b)).sum)).sum =
      (F.map (fun e => (l.map (fun b => f b e)).sum)).sum := by
  induction l with
  | nil => simp
  | cons b0 rest ih =>
    simp only [List.map_cons, List.sum_cons, ih]
    rw [← sum_map_add]

/-! ### Group-by lemmas for the intersection rows -/

theorem interRows_label_mem {bs : List Boundary} {es : List FireEv}
    {r : String × Finset ℕ} (h : r ∈ interRows bs es) :
    ∃ b ∈ bs, r.1 = b.label := by
  rw [interRows, List.mem_flatMap] at h
  obtain ⟨b, hb, hr⟩ := h
  obtain ⟨e, _, rfl⟩ := List.mem_map.mp hr
  exact ⟨b, hb, rfl⟩

theorem interRows_filter_label (bs : List Boundary) (es : List FireEv)
    (b : Boundary) (hnd : (bs.map Boundary.label).Nodup) (hb : b ∈ bs) :
    (interRows bs es).filter (fun r => decide (r.1 = b.label)) =
      (es.filter (fun e => decide (b.geom ∩ e.geom).Nonempty)).map
        (fun e => (b.label, b.geom ∩ e.geom)) := by
  induction bs with
  | nil => exact absurd hb (by simp)
  | cons b0 rest ih =>
    have hnd' : (rest.map Boundary.label).Nodup :=
      (List.nodup_cons.mp (by simpa using hnd)).2
    have hnd0 : b0.label ∉ rest.map Boundary.label :=
      (List.nodup_cons.mp (by simpa using hnd)).1
    rw [interRows_cons, List.filter_append]
    rcases List.mem_cons.mp hb with rfl | hbr
    · have h1 : ((es.filter
          (fun e => decide (b.geom ∩ e.geom).Nonempty)).map
            (fun e => (b.label, b.geom ∩ e.geom))).filter
              (fun r => decide (r.1 = b.label)) =
          (es.filter (fun e => decide (b.geom ∩ e.geom).Nonempty)).map
            (fun e => (b.label, b.geom ∩ e.geom)) := by
        refine List.filter_eq_self.mpr ?_
        intro r hr
        obtain ⟨e, _, rfl⟩ := List.mem_map.mp hr
        simp
      have h2 : (interRows rest es).filter
          (fun r => decide (r.1 = b.label)) = [] := by
        refine List.filter_eq_nil_iff.mpr ?_
        intro r hr
        obtain ⟨b2, hb2, hl⟩ := interRows_label_mem hr
        simp only [decide_eq_true_eq]
        intro he
        exact hnd0 (List.mem_map.mpr ⟨b2, hb2, hl ▸ he⟩)
      rw [h1, h2, List.append_nil]
    · have hlab : b.label ≠ b0.label := by
        intro he
        exact hnd0 (List.mem_map.mpr ⟨b, hbr, he⟩)
      have h1 : ((es.filter
          (fun e => decide (b0.geom ∩ e.geom).Nonempty)).map
            (fun e => (b0.label, b0.geom ∩ e.geom))).filter
              (fun r => decide (r.1 = b.label)) = [] := by
        refine List.filter_eq_nil_iff.mpr ?_
        intro r hr
        obtain ⟨e, _, rfl⟩ := List.mem_map.mp hr
        simp only [decide_eq_true_eq]
        exact fun he => hlab he.symm
      rw [h1, ih hnd' hbr, List.nil_append]

theorem burnByLabel_eq (bs : List Boundary) (es : List FireEv)
    (b : Boundary) (hnd : (bs.map Boundary.label).Nodup) (hb : b ∈ bs) :
    burnByLabel (interRows bs es) b.label =
      (es.map (fun e => areaHa (b.geom ∩ e.geom))).sum := by
  rw [burnByLabel, interRows_filter_label bs es b hnd hb, List.map_map]
  have hz : ∀ e ∈ es,
      (fun e => decide (b.geom ∩ e.geom).Nonempty) e = false →
      (fun e => areaHa (b.geom ∩ e.geom)) e = 0 := by
    intro e _ he
    simp only [decide_eq_false_iff_not, Finset.not_nonempty_iff_eq_empty]
      at he
    simp [areaHa, he]
  have := sum_map_filter_eq
    (fun e => decide (b.geom ∩ e.geom).Nonempty)
    (fun e => areaHa (b.geom ∩ e.geom)) es hz
  simpa [Function.comp] using this

/-! ### Disjoint-union area lemmas -/

theorem disjoint_unionAll {s : Finset ℕ} {bs : List Boundary}
    (h : ∀ b ∈ bs, Disjoint s b.geom) : Disjoint s (unionAll bs) := by
  induction bs with
  | nil => simp [unionAll]
  | cons b0 rest ih =>
    rw [unionAll_cons, Finset.disjoint_union_right]
    exact ⟨h b0 (by simp),
      ih (fun b hb => h b (List.mem_cons_of_mem _ hb))⟩

theorem sum_card_inter_eq_card_inter_unionAll (bs : List Boundary)
    (e : Finset ℕ)
    (hdisj : bs.Pairwise (fun b b2 => Disjoint b.geom b2.geom)) :
    (bs.map (fun b => areaHa (b.geom ∩ e))).sum =
      areaHa (e ∩ unionAll bs) := by
  induction bs with
  | nil => simp [unionAll, areaHa]
  | cons b0 rest ih =>
    have hd0 : ∀ b2 ∈ rest, Disjoint b0.geom b2.geom :=
      (List.pairwise_cons.mp hdisj).1
    have hdr := (List.pairwise_cons.mp hdisj).2
    have hdu : Disjoint b0.geom (unionAll rest) := disjoint_unionAll hd0
    have hdisj2 : Disjoint (e ∩ b0.geom) (e ∩ unionAll rest) :=
      Finset.disjoint_of_subset_left Finset.inter_subset_right
        (Finset.disjoint_of_subset_right Finset.inter_subset_right hdu)
    rw [List.map_cons, List.sum_cons, ih hdr, unionAll_cons,
        Finset.inter_union_distrib_left]
    rw [areaHa, areaHa, areaHa, Finset.card_union_of_disjoint hdisj2]
    push_cast
    rw [Finset.inter_comm e b0.geom]

/-! ### C2: total reported burned area versus events against the union -/

/-- C2 counterexample boundary set: two labels with identical geometry. -/
def c2bs : List Boundary := [⟨"A", {0}⟩, ⟨"B", {0}⟩]

/-- C2 counterexample event set: one qualifying event on that geometry. -/
def c2es : List FireEv := [⟨30, {0}⟩]

/-- C2 counterexample: with two boundary labels of identical geometry and
one qualifying event covering it, the sum of reported burned areas is `2`
while the sum over events of the intersection with the union of boundaries
is `1` — the claim fails for boundary sets whose dissolved geometries
overlap. -/
theorem burn_total_overlap_counterexample :
    reportedBurnTotal c2bs c2es 30 ≠ eventsInterUnionTotal c2bs c2es 30 := by
  have hperm := (pandasSortRowsDesc_perm AggRow.pct
    (aggRows c2bs c2es 30)).map AggRow.burn_ha
  have h1 : reportedBurnTotal c2bs c2es 30 = 2 := by
    rw [reportedBurnTotal, aggregate, hperm.sum_eq]
    norm_num [aggRows, burnByLabel, interRows, filterMinHa, areaHa,
      c2bs, c2es, List.filter_cons]
    rw [if_neg (by decide), if_neg (by decide)]
    norm_num
  have h2 : eventsInterUnionTotal c2bs c2es 30 = 1 := by
    norm_num [eventsInterUnionTotal, filterMinHa, unionAll, areaHa,
      c2bs, c2es, List.filter_cons]
  rw [h1, h2]
  norm_num

/-- C2 amended: provided the dissolved boundary geometries are pairwise
disjoint (as administrative regions are), the sum over all boundary labels
of the reported burned area equals the sum over all qualifying events of
the area of the event's intersection with the union of all boundaries. -/
theorem burn_total_eq_events_inter_union (bs : List Boundary)
    (es : List FireEv) (minHa : ℚ)
    (hnd : (bs.map Boundary.label).Nodup)
    (hdisj : bs.Pairwise (fun b b2 => Disjoint b.geom b2.geom)) :
    reportedBurnTotal bs es minHa = eventsInterUnionTotal bs es minHa := by
  have hperm := (pandasSortRowsDesc_perm AggRow.pct
    (aggRows bs es minHa)).map AggRow.burn_ha
  have e1 : reportedBurnTotal bs es minHa =
      (bs.map (fun b =>
        burnByLabel (interRows bs (filterMinHa es minHa)) b.label)).sum := by
    rw [reportedBurnTotal, aggregate, hperm.sum_eq, aggRows, List.map_map]
    rfl
  have e2 : ∀ b ∈ bs,
      burnByLabel (interRows bs (filterMinHa es minHa)) b.label =
        ((filterMinHa es minHa).map
          (fun e => areaHa (b.geom ∩ e.geom))).sum :=
    fun b hb => burnByLabel_eq bs (filterMinHa es minHa) b hnd hb
  calc reportedBurnTotal bs es minHa
      = (bs.map (fun b => ((filterMinHa es minHa).map
          (fun e => areaHa (b.geom ∩ e.geom))).sum)).sum := by
        rw [e1]
        exact congrArg List.sum (List.map_congr_left e2)
    _ = ((filterMinHa es minHa).map (fun e =>
          (bs.map (fun b => areaHa (b.geom ∩ e.geom))).sum)).sum :=
        sum_sum_comm bs (filterMinHa es minHa)
          (fun b e => areaHa (b.geom ∩ e.geom))
    _ = eventsInterUnionTotal bs es minHa := by
        rw [eventsInterUnionTotal]
        exact congrArg List.sum (List.map_congr_left (fun e _ =>
          sum_card_inter_eq_card_inter_unionAll bs e.geom hdisj))

/-- C2 witness boundary set: two disjoint labelled geometries. -/
def c2dbs : List Boundary := [⟨"A", {0}⟩, ⟨"B", {1}⟩]

/-- C2 witness event set: one qualifying event covering both. -/
def c2des : List FireEv := [⟨30, {0, 1}⟩]

/-- C2 witness: the amended theorem at a concrete disjoint boundary set. -/
theorem burn_total_eq_events_inter_union_witness :
    reportedBurnTotal c2dbs c2des 30 = eventsInterUnionTotal c2dbs c2des 30 :=
  burn_total_eq_events_inter_union c2dbs c2des 30
    (by simp [c2dbs])
    (by simp [c2dbs, List.pairwise_cons])

/-! ### C4: every boundary label appears in the aggregation result -/

/-- C4: with the dissolved boundary labels pairwise distinct, every
boundary label yields a row of the aggregation output, and a boundary none
of whose qualifying-event intersections is non-empty appears with burned
area `0` and percent `0` rather than being omitted.  The percent-zero row
is asserted only for a boundary of positive total area — at total area
zero the float pipeline computes `0.0 / 0.0 = NaN`, not `0`, a natural
positivity side condition in the same way the global-scale claim excludes
Python's division by zero. -/
theorem aggregate_keeps_all_labels (bs : List Boundary) (es : List FireEv)
    (minHa : ℚ) (hnd : (bs.map Boundary.label).Nodup) :
    (∀ b ∈ bs, ∃ row ∈ aggregate bs es minHa, row.label = b.label) ∧
    (∀ b ∈ bs,
      (∀ e ∈ filterMinHa es minHa, b.geom ∩ e.geom = ∅) →
      0 < areaHa b.geom →
      ({ label := b.label, total_ha := areaHa b.geom, burn_ha := 0,
         pct := 0 } : AggRow) ∈ aggregate bs es minHa) := by
  have hperm := pandasSortRowsDesc_perm AggRow.pct (aggRows bs es minHa)
  constructor
  · intro b hb
    refine ⟨{ label := b.label, total_ha := areaHa b.geom
              burn_ha := burnByLabel (interRows bs (filterMinHa es minHa))
                b.label
              pct := burnByLabel (interRows bs (filterMinHa es minHa))
                b.label / areaHa b.geom * 100 }, ?_, rfl⟩
    rw [aggregate]
    exact hperm.mem_iff.mpr (List.mem_map.mpr ⟨b, hb, rfl⟩)
  · intro b hb hint hpos
    have hburn : burnByLabel (interRows bs (filterMinHa es minHa))
        b.label = 0 := by
      rw [burnByLabel_eq bs (filterMinHa es minHa) b hnd hb]
      refine List.sum_eq_zero ?_
      intro x hx
      obtain ⟨e, he, rfl⟩ := List.mem_map.mp hx
      rw [hint e he]
      simp [areaHa]
    rw [aggregate]
    refine hperm.mem_iff.mpr (List.mem_map.mpr ⟨b, hb, ?_⟩)
    have hpct : burnByLabel (interRows bs (filterMinHa es minHa)) b.label /
        areaHa b.geom * 100 = 0 := by
      rw [hburn, div_eq_mul_inv, zero_mul, zero_mul]
    simp [hburn, hpct]

/-- C4 witness boundary set: label "A" intersecting the event, label "B"
with no intersecting qualifying event. -/
def c4bs : List Boundary := [⟨"A", {0, 1}⟩, ⟨"B", {2}⟩]

/-- C4 witness event set. -/
def c4es : List FireEv := [⟨40, {0}⟩]

/-- C4 witness: label "B" has positive total area and no intersecting
qualifying event, yet appears in the aggregation output with burned area 0
and percent 0. -/
theorem aggregate_keeps_all_labels_witness :
    ({ label := "B", total_ha := 1, burn_ha := 0, pct := 0 } : AggRow) ∈
      aggregate c4bs c4es 30 := by
  have h := (aggregate_keeps_all_labels c4bs c4es 30 (by simp [c4bs])).2
    ⟨"B", {2}⟩ (by simp [c4bs]) ?_ (by norm_num [areaHa])
  · simpa [areaHa] using h
  · intro e he
    simp only [c4es, filterMinHa, List.filter_cons, List.filter_nil] at he
    norm_num at he
    subst he
    decide

/-! ## Minimum-area filter over dataframe columns (filter_fires_min_ha of
11/12/13)

A dataframe is a declared column list plus rows; a row's cell is `none`
when the value is NaN or the column is absent.  The pandas elementwise
comparison `series >= min_ha` is `False` on NaN. -/

/-- The fixed priority list of candidate area column names. -/
def candidateCols : List String :=
  ["area_ha", "AREA_HA", "areaHA", "area", "ha"]

/-- One event row of the fires dataframe: attribute cells and the area the
geometric measurement fallback would produce for it. -/
structure FireRow where
  attrs : List (String × Option ℚ)
  geomHa : ℚ
deriving DecidableEq

/-- The fires dataframe: declared columns and rows. -/
structure FiresFrame where
  columns : List String
  rows : List FireRow
deriving DecidableEq

/-- Cell of a row at a column; `none` models NaN or an absent cell. -/
def getVal (r : FireRow) (c : String) : Option ℚ :=
  match r.attrs.lookup c with
  | some v => v
  | none => none

/-- The `for cand in [...]: if cand in fires.columns: area_field = cand;
break` loop: the first candidate name that is a column of the frame. -/
def firstCandidate (fr : FiresFrame) : Option String :=
  candidateCols.find? (fun c => fr.columns.contains c)

/-- pandas elementwise `value >= min_ha`: `False` when the value is NaN. -/
def geNaN (v : Option ℚ) (m : ℚ) : Bool :=
  match v with
  | some x => decide (m ≤ x)
  | none => false

/-- Function `filter_fires_min_ha`: filter on the first existing candidate column
when one exists, else measure areas geometrically and filter on those.  The
boolean records whether the geometric-measurement fallback branch ran. -/
def filter_fires_min_ha (fr : FiresFrame) (minHa : ℚ) :
    List FireRow × Bool :=
  match firstCandidate fr with
  | some c => (fr.rows.filter (fun r => geNaN (getVal r c) minHa), false)
  | none => (fr.rows.filter (fun r => decide (minHa ≤ r.geomHa)), true)

/-! ### C9: NaN areas are excluded, never backfilled -/

/-- C9: when some candidate area column exists, the filter keeps exactly
the rows whose value in the first such column is present and at least the
threshold — a row with a NaN value there is excluded — and the geometric
measurement branch does not run; geometric measurement happens exactly when
no candidate column exists. -/
theorem filter_fires_min_ha_nan_excluded (fr : FiresFrame) (minHa : ℚ) :
    (∀ c, firstCandidate fr = some c →
      (filter_fires_min_ha fr minHa).2 = false ∧
      (∀ r ∈ (filter_fires_min_ha fr minHa).1,
        ∃ v, getVal r c = some v ∧ minHa ≤ v) ∧
      (∀ r ∈ fr.rows, getVal r c = none →
        r ∉ (filter_fires_min_ha fr minHa).1)) ∧
    (firstCandidate fr = none →
      (filter_fires_min_ha fr minHa).2 = true ∧
      (filter_fires_min_ha fr minHa).1 =
        fr.rows.filter (fun r => decide (minHa ≤ r.geomHa))) := by
  constructor
  · intro c hc
    simp only [filter_fires_min_ha, hc]
    refine ⟨trivial, ?_, ?_⟩
    · intro r hr
      rw [List.mem_filter] at hr
      cases hv : getVal r c with
      | none =>
        rw [hv] at hr
        simp [geNaN] at hr
      | some v =>
        rw [hv] at hr
        refine ⟨v, rfl, ?_⟩
        have := hr.2
        simp only [geNaN, decide_eq_true_eq] at this
        exact this
    · intro r _ hnone hmem
      rw [List.mem_filter, hnone] at hmem
      simp [geNaN] at hmem
  · intro hc
    simp only [filter_fires_min_ha, hc]
    exact ⟨trivial, trivial⟩

/-- C9 witness frame: the column "area_ha" exists (first candidate) next to
"area"; the row has NaN in "area_ha", a large value in "area", and a large
measured geometric area. -/
def c9frameA : FiresFrame :=
  { columns := ["area_ha", "area"]
    rows := [{ attrs := [("area_ha", none), ("area", some 100)]
               geomHa := 500 }] }

/-- C9 witness frame with no candidate column at all. -/
def c9frameB : FiresFrame :=
  { columns := ["name"]
    rows := [{ attrs := [("name", none)], geomHa := 500 }] }

/-- C9 witness: on `c9frameA` the NaN row is excluded without geometric
backfill despite its other area data; on `c9frameB` the geometric fallback
branch runs. -/
theorem filter_fires_min_ha_nan_excluded_witness :
    (filter_fires_min_ha c9frameA 30).2 = false ∧
    ({ attrs := [("area_ha", none), ("area", some 100)],
       geomHa := 500 } : FireRow) ∉ (filter_fires_min_ha c9frameA 30).1 ∧
    (filter_fires_min_ha c9frameB 30).2 = true := by
  have hA := (filter_fires_min_ha_nan_excluded c9frameA 30).1 "area_ha"
    (by simp [firstCandidate, candidateCols, c9frameA])
  have hB := (filter_fires_min_ha_nan_excluded c9frameB 30).2
    (by simp [firstCandidate, candidateCols, c9frameB])
  refine ⟨hA.1, ?_, hB.1⟩
  exact hA.2.2 _ (by simp [c9frameA]) (by simp [getVal])

end Incendios
